import Mathlib

/-!
Verification of the Nokia XS-240X-A configuration decoder (`src/nokia.py`).

The decoder's unpack branch (`-u`) is embedded shallowly:

* bytes are `List Nat` (each element a byte value);
* `checkendian`, `u32`, the header extraction, the CRC-32 check and the
  decompression search loop are translated directly from the source;
* the AES-256 block primitive from the external crypto library is
  implemented from the FIPS-197 algebraic description and validated
  against the FIPS-197 C.3 test vector; `RouterCrypto.decrypt` is kept
  parametric in the 16-byte block decryption function `D` so that the
  padding-strip and CBC chaining logic (the repository's own code) can be
  studied for every block cipher, and is instantiated with the real
  AES-256 key schedule of the hard-coded key for concrete computations;
* `zlib.decompress` is an external library primitive whose behaviour the
  claims do not constrain, so the search loop is parametric in a
  decompression oracle `dec : List Nat -> Int -> Option (List Nat)`
  (`none` models `zlib.error`);
* Python exits and uncaught exceptions become constructors of
  `DecodeError`; `StructError` models the uncaught `struct.error` raised
  by `struct.unpack` on a short slice.
-/

set_option maxRecDepth 200000

/-- Typed outcomes of the decode pipeline. `UnrecognizedFormat`,
`ChecksumMismatch` and `NoValidDecompressionParameters` correspond to the
three `sys.exit(1)` error paths of the `-u` branch; `StructError` models
the uncaught `struct.error` exception raised by `u32` on a short buffer.
`TruncatedHeader` and `PayloadOutOfRange` are the failure kinds named by
the specification's header-parser contract; they are included so that
claims about them can be stated. -/
inductive DecodeError where
  | UnrecognizedFormat
  | TruncatedHeader
  | PayloadOutOfRange
  | ChecksumMismatch
  | NoValidDecompressionParameters
  | StructError
  deriving DecidableEq, Repr

/-- Failure modes of the cipher adapter: the crypto library rejects a
ciphertext whose length is not a multiple of the 16-byte block size, and
reading the padding byte `output[-1]` of an empty plaintext raises
`IndexError`. -/
inductive DecryptionError where
  | BadBlockLength
  | EmptyPlaintext
  deriving DecidableEq, Repr

/-- Embeds `u32` (source line 20): `struct.unpack` of exactly four bytes,
big- or little-endian; `none` models the `struct.error` raised when the
buffer is not exactly 4 bytes long. -/
def u32 (big_endian : Bool) (bs : List Nat) : Option Nat :=
  if bs.length = 4 then
    some (if big_endian then
            (bs.foldl (fun a b => a * 256 + b) 0)
          else
            (bs.reverse.foldl (fun a b => a * 256 + b) 0))
  else
    none

/-- Embeds `checkendian` (source lines 26-33): `some true` for the
big-endian magic `00 12 31 23`, `some false` for the little-endian magic
`23 31 12 00`, `none` otherwise. `cfg.take 4` is Python's clamping slice
`cfg[0:4]`. -/
def checkendian (cfg : List Nat) : Option Bool :=
  if cfg.take 4 = [0x00, 0x12, 0x31, 0x23] then some true
  else if cfg.take 4 = [0x23, 0x31, 0x12, 0x00] then some false
  else none

/-- The hard-coded AES-256 key of `RouterCrypto.__init__` (source line 39). -/
def nokiaKey : List Nat :=
  [0xF8, 0x4A, 0x90, 0xB1, 0xC5, 0xC7, 0x11, 0x9F,
   0x4A, 0x24, 0xAC, 0x88, 0xF0, 0xC6, 0x27, 0x50,
   0xB9, 0x4D, 0x05, 0x91, 0x6F, 0x08, 0xD9, 0x01,
   0x4F, 0x35, 0x0C, 0xA4, 0xF8, 0x2B, 0x45, 0x42]

/-- The hard-coded AES initialization vector of `RouterCrypto.__init__`
(source line 40). -/
def nokiaIV : List Nat :=
  [0x87, 0xD0, 0xE1, 0x59, 0x79, 0x36, 0x29, 0x48,
   0x4D, 0x59, 0xCC, 0xA3, 0xF9, 0x54, 0xD5, 0x47]

/-- Cipher-block-chaining decryption with block size 16, parametric in the
single-block decryption function `D`. The plaintext block is the
block decryption xored with the previous ciphertext block (initially the
IV), exactly as the library's `AES.MODE_CBC` decrypt does. The first
argument is fuel bounding the recursion by the input length. -/
def cbcDec (D : List Nat → List Nat) : Nat → List Nat → List Nat → List Nat
  | 0, _, _ => []
  | _ + 1, _, [] => []
  | n + 1, prev, b :: rest =>
      List.zipWith Nat.xor (D ((b :: rest).take 16)) prev ++
        cbcDec D n ((b :: rest).take 16) ((b :: rest).drop 16)

/-- The raw CBC decryption of `data` under block cipher `D` with the
fixed IV, before any padding handling: `self.cipher.decrypt(data)` at
source line 50. -/
def rawCBCDecrypt (D : List Nat → List Nat) (data : List Nat) : List Nat :=
  cbcDec D data.length nokiaIV data

/-- Python's negative-stop slice `l[:-k]`: for `k = 0` this is `l[:0]`,
the empty sequence; for `k > 0` it keeps `max(0, len - k)` leading
elements. -/
def pyNegSlice (l : List Nat) (k : Nat) : List Nat :=
  if k = 0 then [] else l.take (l.length - k)

/-- Embeds `RouterCrypto.decrypt` (source lines 49-53), parametric in the
AES block decryption `D`. The library raises on a ciphertext whose length
is not a multiple of 16 (`BadBlockLength`); on an empty plaintext the
padding read `output[-1]` raises `IndexError` (`EmptyPlaintext`);
otherwise the last byte `pad` is read and `output[:-pad]` is returned
unconditionally. -/
def RouterCrypto.decrypt (D : List Nat → List Nat) (data : List Nat) :
    Except DecryptionError (List Nat) :=
  if data.length % 16 = 0 then
    match (rawCBCDecrypt D data).getLast? with
    | none => .error .EmptyPlaintext
    | some pad => .ok (pyNegSlice (rawCBCDecrypt D data) pad)
  else
    .error .BadBlockLength

/-- Embeds the decryption check of the `-u` branch (source lines 76-94):
sniff the raw blob; if unrecognized, try to decrypt (any exception is
swallowed by the bare `except`) and sniff the decrypted output; give up
with the `Invalid cfg file/magic` exit — `UnrecognizedFormat` — when both
sniffs fail. Returns the normalized blob, the detected endianness and the
`encrypted_cfg` flag. -/
def classify (D : List Nat → List Nat) (raw : List Nat) :
    Except DecodeError (List Nat × Bool × Bool) :=
  match checkendian raw with
  | some be => .ok (raw, be, false)
  | none =>
      match RouterCrypto.decrypt D raw with
      | .ok decrypted =>
          match checkendian decrypted with
          | some be => .ok (decrypted, be, true)
          | none => .error .UnrecognizedFormat
      | .error _ => .error .UnrecognizedFormat

/-- The header fields extracted at source lines 103-106. `compressed` is
the clamping Python slice `cfg_data[0x14 : 0x14 + data_size]`. -/
structure Header where
  fw_magic : Nat
  data_size : Nat
  checksum : Nat
  compressed : List Nat
  deriving DecidableEq, Repr

/-- Embeds the header extraction (source lines 103-106). The source reads
`fw_magic` first, so any blob shorter than 0x14 bytes makes that
`struct.unpack` call raise `struct.error` (`none` here); there is no
explicit length validation. The payload slice clamps to the end of the
blob as Python slices do. -/
def parseHeader (big_endian : Bool) (blob : List Nat) : Option Header :=
  match u32 big_endian ((blob.drop 0x10).take 4) with
  | none => none
  | some fw =>
      match u32 big_endian ((blob.drop 4).take 4) with
      | none => none
      | some ds =>
          match u32 big_endian ((blob.drop 8).take 4) with
          | none => none
          | some ck => some ⟨fw, ds, ck, (blob.drop 0x14).take ds⟩

/-- One round of the CRC-32 bit loop: shift right and conditionally xor
the reflected polynomial 0xEDB88320, as in zlib. -/
def crc32Round (c : Nat) : Nat :=
  if c % 2 = 1 then (c / 2) ^^^ 0xEDB88320 else c / 2

/-- Eight applications of `crc32Round`. -/
def crc32Rounds : Nat → Nat → Nat
  | 0, c => c
  | n + 1, c => crc32Rounds n (crc32Round c)

/-- The standard CRC-32 checksum (reflected polynomial 0xEDB88320,
initial value and final xor 0xFFFFFFFF), the function computed by
`binascii.crc32`. -/
def crc32 (data : List Nat) : Nat :=
  (data.foldl (fun c b => crc32Rounds 8 (c ^^^ b % 256)) 0xFFFFFFFF) ^^^ 0xFFFFFFFF

/-- Python's `list(range(a, b))` for integer bounds. -/
def pyRange (a b : Int) : List Int :=
  (List.range (b - a).toNat).map (fun i => a + i)

/-- Embeds `wbits_to_try` (source line 120):
`list(range(-15, -7)) + [15, 31, 47]`. -/
def wbits_to_try : List Int :=
  pyRange (-15) (-7) ++ [15, 31, 47]

/-- Embeds `offsets` (source line 123). -/
def offsets : List Nat := [0, 4, 8, 12, 16]

/-- Embeds the inner `for wbits in wbits_to_try` loop (source lines
128-135). `acc` is the current value of the `xml_data` variable (`none`
is Python's `None`); a successful decompression overwrites it and the
loop breaks only when the new value is non-empty (truthy); `zlib.error`
(`dec _ _ = none`) leaves it unchanged. -/
def tryInner (dec : List Nat → Int → Option (List Nat)) (co : List Nat) :
    List Int → Option (List Nat) → Option (List Nat)
  | [], acc => acc
  | w :: ws, acc =>
      match dec co w with
      | some x => if x = [] then tryInner dec co ws (some x) else some x
      | none => tryInner dec co ws acc

/-- Embeds the outer `for offset in offsets` loop (source lines 125-138):
run the inner loop on `compressed[offset:]` and break when `xml_data` is
truthy (some non-empty output). -/
def tryOffsets (dec : List Nat → Int → Option (List Nat)) (compressed : List Nat) :
    List Nat → Option (List Nat) → Option (List Nat)
  | [], acc => acc
  | o :: os, acc =>
      match tryInner dec (compressed.drop o) wbits_to_try acc with
      | some x =>
          if x = [] then tryOffsets dec compressed os (some x) else some x
      | none => tryOffsets dec compressed os none

/-- The full search loop over all offsets, started with `xml_data = None`
(source line 117). -/
def searchLoop (dec : List Nat → Int → Option (List Nat)) (compressed : List Nat) :
    Option (List Nat) :=
  tryOffsets dec compressed offsets none

/-- The decompression stage: the search loop followed by the final
`if not xml_data` check (source line 141), which treats both `None` and
an empty decompression result as failure. -/
def decompressStage (dec : List Nat → Int → Option (List Nat)) (compressed : List Nat) :
    Except DecodeError (List Nat) :=
  match searchLoop dec compressed with
  | some x => if x = [] then .error .NoValidDecompressionParameters else .ok x
  | none => .error .NoValidDecompressionParameters

/-- The terminal value of a successful decode: the recovered document,
the detected endianness, the `encrypted_cfg` flag and the firmware magic
used for the repack hint. -/
structure DecodeResult where
  xml : List Nat
  big_endian : Bool
  encrypted : Bool
  fw_magic : Nat
  deriving DecidableEq, Repr

/-- The whole `-u` pipeline (source lines 76-154): classification,
header extraction, CRC-32 gate, decompression search. Parametric in the
AES block primitive `D` and the decompression oracle `dec`. -/
def decode (D : List Nat → List Nat) (dec : List Nat → Int → Option (List Nat))
    (raw : List Nat) : Except DecodeError DecodeResult :=
  match classify D raw with
  | .error e => .error e
  | .ok (blob, be, enc) =>
      match parseHeader be blob with
      | none => .error .StructError
      | some hdr =>
          if (crc32 hdr.compressed &&& 0xFFFFFFFF) = hdr.checksum then
            match decompressStage dec hdr.compressed with
            | .ok xml => .ok ⟨xml, be, enc, hdr.fw_magic⟩
            | .error e => .error e
          else
            .error .ChecksumMismatch

/-- The candidate (offset, wbits) pairs in the order the nested loops
visit them: offsets outer, window parameters inner. -/
def candidatePairs : List (Nat × Int) :=
  offsets.flatMap (fun o => wbits_to_try.map (fun w => (o, w)))

/-- The observable of one candidate: `some` of the decompression output
when the oracle succeeds on `compressed[offset:]` with non-empty output,
`none` when it raises or returns empty output. -/
def candidateHit (dec : List Nat → Int → Option (List Nat)) (compressed : List Nat)
    (p : Nat × Int) : Option (List Nat) :=
  match dec (compressed.drop p.1) p.2 with
  | some x => if x = [] then none else some x
  | none => none

/-!
The AES-256 block primitive. `RouterCrypto` delegates raw block
decryption to the external crypto library; the primitive is implemented
here from the FIPS-197 description (S-box as the affine image of the
GF(2^8) inverse, key expansion with Nk = 8, the straight inverse cipher)
and validated below against the FIPS-197 Appendix C.3 test vector.
-/

/-- Multiplication by x in GF(2^8) modulo the AES polynomial 0x11B. -/
def xtime (a : Nat) : Nat := if a < 128 then a * 2 else (a * 2) ^^^ 0x11B

/-- Russian-peasant multiplication loop in GF(2^8); the first argument is
the remaining number of bits of `b`. -/
def gmulAux : Nat → Nat → Nat → Nat → Nat
  | 0, _, _, acc => acc
  | n + 1, a, b, acc =>
      gmulAux n (xtime a) (b / 2) (if b % 2 = 1 then acc ^^^ a else acc)

/-- Multiplication in GF(2^8) modulo 0x11B. -/
def gmul (a b : Nat) : Nat := gmulAux 8 a b 0

/-- Multiplicative inverse in GF(2^8) (with 0 mapped to 0), computed as
x^254 by a square-and-multiply chain. -/
def ginv (x : Nat) : Nat :=
  let x2 := gmul x x
  let x4 := gmul x2 x2
  let x8 := gmul x4 x4
  let x16 := gmul x8 x8
  let x32 := gmul x16 x16
  let x64 := gmul x32 x32
  let x128 := gmul x64 x64
  gmul x128 (gmul x64 (gmul x32 (gmul x16 (gmul x8 (gmul x4 x2)))))

/-- Left rotation of a byte by `k` bits. -/
def rotl8 (b k : Nat) : Nat := ((b <<< k) &&& 255) ||| (b >>> (8 - k))

/-- The AES S-box: affine transform of the GF(2^8) inverse. -/
def sbox (x : Nat) : Nat :=
  let b := ginv (x % 256)
  b ^^^ rotl8 b 1 ^^^ rotl8 b 2 ^^^ rotl8 b 3 ^^^ rotl8 b 4 ^^^ 0x63

/-- The inverse AES S-box: inverse affine transform followed by the
GF(2^8) inverse. -/
def invSbox (y : Nat) : Nat :=
  let b := y % 256
  ginv (rotl8 b 1 ^^^ rotl8 b 3 ^^^ rotl8 b 6 ^^^ 0x05)

/-- Big-endian packing of four bytes into a 32-bit word. -/
def word4 (bs : List Nat) : Nat := bs.foldl (fun a b => a * 256 + b) 0

/-- Big-endian unpacking of a 32-bit word into four bytes. -/
def wordToBytes (w : Nat) : List Nat :=
  [w >>> 24, (w >>> 16) &&& 255, (w >>> 8) &&& 255, w &&& 255]

/-- The key-expansion SubWord step: the S-box applied to each byte. -/
def subword (w : Nat) : Nat :=
  (sbox (w >>> 24)) <<< 24 ||| (sbox ((w >>> 16) &&& 255)) <<< 16 |||
    (sbox ((w >>> 8) &&& 255)) <<< 8 ||| sbox (w &&& 255)

/-- The key-expansion RotWord step: cyclic left rotation by one byte. -/
def rotword (w : Nat) : Nat := ((w &&& 0xFFFFFF) <<< 8) ||| (w >>> 24)

/-- The round-constant byte Rcon, rc(1) = 1, doubling in GF(2^8). -/
def rconByte : Nat → Nat
  | 0 => 0
  | 1 => 1
  | n + 2 => xtime (rconByte (n + 1))

/-- One step of AES-256 key expansion (Nk = 8), producing word `i` from
the previous words. -/
def nextWord (ws : List Nat) : Nat :=
  let i := ws.length
  let temp := ws.getLastD 0
  let temp2 :=
    if i % 8 = 0 then subword (rotword temp) ^^^ ((rconByte (i / 8)) <<< 24)
    else if i % 8 = 4 then subword temp
    else temp
  (ws.getD (i - 8) 0) ^^^ temp2

/-- Iterated key expansion. -/
def expandAux : Nat → List Nat → List Nat
  | 0, ws => ws
  | n + 1, ws => expandAux n (ws ++ [nextWord ws])

/-- The 60 words of the AES-256 key schedule. -/
def keyWords (keyBytes : List Nat) : List Nat :=
  expandAux 52 ((List.range 8).map (fun i => word4 ((keyBytes.drop (4 * i)).take 4)))

/-- The 16 bytes of round key `r` (words 4r..4r+3, filled column-wise). -/
def roundKeyBytes (ws : List Nat) (r : Nat) : List Nat :=
  ((ws.drop (4 * r)).take 4).flatMap wordToBytes

/-- AddRoundKey: bytewise xor of the state with the round key. -/
def addRoundKey (s k : List Nat) : List Nat := List.zipWith Nat.xor s k

/-- InvSubBytes: the inverse S-box applied to every state byte. -/
def invSubBytes (s : List Nat) : List Nat := s.map invSbox

/-- InvShiftRows on the flat column-major state: row `r` is rotated right
by `r` positions. -/
def invShiftRows (s : List Nat) : List Nat :=
  (List.range 16).map (fun i => s.getD (i % 4 + 4 * ((i / 4 + 4 - i % 4) % 4)) 0)

/-- InvMixColumns: each column multiplied by the circulant matrix
(14, 11, 13, 9) over GF(2^8). -/
def invMixColumns (s : List Nat) : List Nat :=
  (List.range 16).map (fun i =>
    let c := i / 4
    let a0 := s.getD (4 * c) 0
    let a1 := s.getD (4 * c + 1) 0
    let a2 := s.getD (4 * c + 2) 0
    let a3 := s.getD (4 * c + 3) 0
    match i % 4 with
    | 0 => gmul 14 a0 ^^^ gmul 11 a1 ^^^ gmul 13 a2 ^^^ gmul 9 a3
    | 1 => gmul 9 a0 ^^^ gmul 14 a1 ^^^ gmul 11 a2 ^^^ gmul 13 a3
    | 2 => gmul 13 a0 ^^^ gmul 9 a1 ^^^ gmul 14 a2 ^^^ gmul 11 a3
    | _ => gmul 11 a0 ^^^ gmul 13 a1 ^^^ gmul 9 a2 ^^^ gmul 14 a3)

/-- The middle rounds of the inverse cipher, from round `n` down to 1. -/
def decRounds (rk : Nat → List Nat) : Nat → List Nat → List Nat
  | 0, s => s
  | n + 1, s =>
      decRounds rk n (invMixColumns (addRoundKey (invSubBytes (invShiftRows s)) (rk (n + 1))))

/-- The AES-256 inverse cipher (FIPS-197 InvCipher, Nr = 14) on one
16-byte block under the given 32-byte key. -/
def aesDecBlockWith (keyBytes block : List Nat) : List Nat :=
  let ws := keyWords keyBytes
  let s0 := addRoundKey ((List.range 16).map (fun i => block.getD i 0)) (roundKeyBytes ws 14)
  let s1 := decRounds (roundKeyBytes ws) 13 s0
  addRoundKey (invSubBytes (invShiftRows s1)) (roundKeyBytes ws 0)

/-- The block primitive `RouterCrypto` uses: AES-256 decryption under the
hard-coded key. -/
def aesDecBlockNokia : List Nat → List Nat := aesDecBlockWith nokiaKey

/-- The cipher adapter as instantiated by the source: `RouterCrypto`
with the hard-coded AES-256 key and IV. -/
def nokiaDecrypt : List Nat → Except DecryptionError (List Nat) :=
  RouterCrypto.decrypt aesDecBlockNokia

/-- The raw CBC decryption under the hard-coded key and IV. -/
def nokiaRawDecrypt : List Nat → List Nat :=
  rawCBCDecrypt aesDecBlockNokia

/-- The key of the FIPS-197 Appendix C.3 example: bytes 00..1f. -/
def fipsKey : List Nat := List.range 32

/-- The ciphertext of the FIPS-197 Appendix C.3 example. -/
def fipsCt : List Nat :=
  [0x8e, 0xa2, 0xb7, 0xca, 0x51, 0x67, 0x45, 0xbf,
   0xea, 0xfc, 0x49, 0x90, 0x4b, 0x49, 0x60, 0x89]

/-- The plaintext of the FIPS-197 Appendix C.3 example. -/
def fipsPt : List Nat :=
  [0x00, 0x11, 0x22, 0x33, 0x44, 0x55, 0x66, 0x77,
   0x88, 0x99, 0xaa, 0xbb, 0xcc, 0xdd, 0xee, 0xff]

/-- Validation of the AES-256 implementation: the inverse cipher maps the
FIPS-197 Appendix C.3 ciphertext back to its plaintext. -/
theorem aes256_fips_c3 : aesDecBlockWith fipsKey fipsCt = fipsPt := by decide

/-- Validation of the CRC-32 implementation: the classic check value of
the byte string 123456789. -/
theorem crc32_check_value :
    crc32 [49, 50, 51, 52, 53, 54, 55, 56, 57] = 0xCBF43926 := by decide

/-!
Concrete fixtures used by witnesses and counterexamples.
-/

/-- A degenerate block cipher used where the result cannot depend on the
cipher. -/
def Dnil : List Nat → List Nat := fun _ => []

/-- A decompression oracle that always raises `zlib.error`. -/
def decNone : List Nat → Int → Option (List Nat) := fun _ _ => none

/-!
Helper lemmas shared by several claims.
-/

theorem classify_error_is_unrecognized (D : List Nat → List Nat) (raw : List Nat)
    (err : DecodeError) (h : classify D raw = .error err) :
    err = .UnrecognizedFormat := by
  unfold classify at h
  cases hce : checkendian raw with
  | some be =>
      simp only [hce] at h
      exact Except.noConfusion h
  | none =>
      simp only [hce] at h
      cases hd : RouterCrypto.decrypt D raw with
      | ok d =>
          simp only [hd] at h
          cases hce2 : checkendian d with
          | some be =>
              simp only [hce2] at h
              exact Except.noConfusion h
          | none =>
              simp only [hce2, Except.error.injEq] at h
              exact h.symm
      | error e =>
          simp only [hd, Except.error.injEq] at h
          exact h.symm

theorem decompressStage_error_is_novalid (dec : List Nat → Int → Option (List Nat))
    (compressed : List Nat) (err : DecodeError)
    (h : decompressStage dec compressed = .error err) :
    err = .NoValidDecompressionParameters := by
  unfold decompressStage at h
  cases hs : searchLoop dec compressed with
  | none =>
      simp only [hs, Except.error.injEq] at h
      exact h.symm
  | some x =>
      simp only [hs] at h
      by_cases hx : x = []
      · simp only [if_pos hx, Except.error.injEq] at h
        exact h.symm
      · simp only [if_neg hx] at h
        exact Except.noConfusion h

theorem u32_some_of_len (big_endian : Bool) (bs : List Nat) (h : bs.length = 4) :
    ∃ v, u32 big_endian bs = some v :=
  ⟨_, by unfold u32; rw [if_pos h]⟩

theorem parseHeader_some_of_len (big_endian : Bool) (blob : List Nat)
    (h : 0x14 ≤ blob.length) :
    parseHeader big_endian blob =
      some ⟨(u32 big_endian ((blob.drop 0x10).take 4)).getD 0,
            (u32 big_endian ((blob.drop 4).take 4)).getD 0,
            (u32 big_endian ((blob.drop 8).take 4)).getD 0,
            (blob.drop 0x14).take ((u32 big_endian ((blob.drop 4).take 4)).getD 0)⟩ := by
  obtain ⟨fw, hfw⟩ := u32_some_of_len big_endian ((blob.drop 0x10).take 4)
    (by simp [List.length_take, List.length_drop]; omega)
  obtain ⟨ds, hds⟩ := u32_some_of_len big_endian ((blob.drop 4).take 4)
    (by simp [List.length_take, List.length_drop]; omega)
  obtain ⟨ck, hck⟩ := u32_some_of_len big_endian ((blob.drop 8).take 4)
    (by simp [List.length_take, List.length_drop]; omega)
  unfold parseHeader
  rw [hfw, hds, hck]
  simp

/-- CLAIM C7. The endianness sniffer is total: it answers BigEndian
(`some true`) exactly when the first four bytes are 00 12 31 23,
LittleEndian (`some false`) exactly when they are 23 31 12 00, Unknown
(`none`) otherwise, and in particular on every input shorter than 4
bytes, never faulting (it is a Lean function, hence total by
construction). -/
theorem checkendian_total_spec (cfg : List Nat) :
    (checkendian cfg = some true ↔ cfg.take 4 = [0x00, 0x12, 0x31, 0x23]) ∧
    (checkendian cfg = some false ↔ cfg.take 4 = [0x23, 0x31, 0x12, 0x00]) ∧
    (cfg.length < 4 → checkendian cfg = none) := by
  unfold checkendian
  refine ⟨?_, ?_, ?_⟩
  · split_ifs with h1 h2
    · simp [h1]
    · simp [h2]
    · simp [h1]
  · split_ifs with h1 h2
    · simp [h1]
    · simp [h2]
    · simp [h2]
  · intro hlen
    split_ifs with h1 h2
    · exfalso
      have := congrArg List.length h1
      simp [List.length_take] at this
      omega
    · exfalso
      have := congrArg List.length h2
      simp [List.length_take] at this
      omega
    · rfl

/-- Witness for C7 at the concrete 1-byte input 23. -/
theorem checkendian_total_spec_witness :
    checkendian [0x23] = none ∧ ([0x23] : List Nat).length < 4 :=
  ⟨(checkendian_total_spec [0x23]).2.2 (by decide), by decide⟩

/-- CLAIM C9. When the sniffer recognizes a blob as big- or
little-endian, the classifier returns the blob byte-for-byte unchanged
with that endianness and `was_encrypted = false`. The block cipher `D` is
universally quantified and does not occur in the conclusion: the cipher
adapter is never invoked on this path. -/
theorem plaintext_passthrough (D : List Nat → List Nat) (raw : List Nat)
    (be : Bool) (h : checkendian raw = some be) :
    classify D raw = .ok (raw, be, false) := by
  unfold classify
  rw [h]

/-- Witness for C9 at the concrete big-endian magic blob. -/
theorem plaintext_passthrough_witness :
    classify Dnil [0x00, 0x12, 0x31, 0x23] =
      .ok ([0x00, 0x12, 0x31, 0x23], true, false) :=
  plaintext_passthrough Dnil [0x00, 0x12, 0x31, 0x23] true (by decide)

/-- CLAIM C4. For a raw blob matching neither magic, every failure of the
cipher adapter is swallowed by the classifier and surfaces as the single
`UnrecognizedFormat` failure; moreover `UnrecognizedFormat` is the only
failure the classifier can produce, so no raw cipher error reaches the
caller. -/
theorem cipher_failure_swallowed (D : List Nat → List Nat) (raw : List Nat)
    (h : checkendian raw = none) :
    (∀ e, RouterCrypto.decrypt D raw = .error e →
      classify D raw = .error .UnrecognizedFormat) ∧
    (∀ err, classify D raw = .error err → err = .UnrecognizedFormat) := by
  constructor
  · intro e he
    unfold classify
    rw [h, he]
  · intro err herr
    exact classify_error_is_unrecognized D raw err herr

/-- Witness for C4: a 3-byte blob (length not a multiple of 16) with
unrecognized magic is classified as `UnrecognizedFormat`, the
`BadBlockLength` cipher failure being swallowed. -/
theorem cipher_failure_swallowed_witness :
    classify Dnil [1, 2, 3] = .error .UnrecognizedFormat :=
  (cipher_failure_swallowed Dnil [1, 2, 3] (by decide)).1 .BadBlockLength (by rfl)

/-- CLAIM C10. Decrypting the empty byte string (length 0, a multiple of
the block size) does not produce the empty plaintext: the padding read
`output[-1]` faults on the empty raw decryption, so the call yields the
error branch, for every block cipher `D`. -/
theorem decrypt_empty_faults (D : List Nat → List Nat) :
    RouterCrypto.decrypt D [] = .error .EmptyPlaintext := rfl

/-- Modelled from the spec: the inner candidate list as the claim reads it
— raw-Deflate windows ordered from the smallest supported window size
(wbits -8, window 256) up to the largest (wbits -15, window 32768),
followed by the zlib-wrapped format (wbits 15), followed by the
gzip-wrapped format (wbits 31). Compared below against the source's
`wbits_to_try`. -/
def specInnerParams : List Int :=
  [-8, -9, -10, -11, -12, -13, -14, -15] ++ [15] ++ [31]

/-- Counterexample to C2 as stated: the source list is not the spec-order
list; it contains the extra automatic zlib-or-gzip parameter 47 (which is
neither the zlib- nor the gzip-wrapped format alone, and follows the
gzip entry), and its raw-Deflate prefix starts at wbits -15 — the largest
window, 32768 bytes — not the smallest. -/
theorem wbits_spec_order_cx :
    wbits_to_try ≠ specInnerParams ∧
    (47 : Int) ∈ wbits_to_try ∧
    (47 : Int) ∉ specInnerParams ∧
    wbits_to_try.head? = some (-15) ∧
    wbits_to_try.getLast? = some 47 := by decide

/-- The raw-Deflate window size denoted by a negative wbits value. -/
def rawWindowSize (w : Int) : Nat := 2 ^ w.natAbs

/-- CLAIM C2, amended. The inner candidate list is the raw-Deflate
windows for wbits -15 up to -8 in ascending wbits order — i.e. window
sizes from the largest, 32768, strictly down to the smallest supported,
256 — followed by the zlib-wrapped format (15), the gzip-wrapped format
(31) and the automatic zlib-or-gzip format (47). -/
theorem wbits_to_try_characterization :
    wbits_to_try =
      [-15, -14, -13, -12, -11, -10, -9, -8] ++ [15] ++ [31] ++ [47] ∧
    (wbits_to_try.take 8).map rawWindowSize =
      [32768, 16384, 8192, 4096, 2048, 1024, 512, 256] := by
  refine ⟨by decide, by decide⟩

/-- The 20-byte blob used to refute C5: a big-endian magic, a declared
payload length of 100 (far beyond the blob's end), a checksum of 0 (the
CRC-32 of the empty payload the slice clamps to). -/
def blobC5cx : List Nat :=
  [0x00, 0x12, 0x31, 0x23,
   0, 0, 0, 100,
   0, 0, 0, 0,
   0, 0, 0, 0,
   0, 0, 0, 0]

/-- Counterexample to C5 as stated: on `blobC5cx` the declared payload
length 100 satisfies 0x14 + 100 > 20 = len(blob), yet the header parser
succeeds (the payload slice clamps to the empty list), the pipeline
proceeds — the CRC-32 gate even passes on the truncated payload — and the
decode fails only in the decompression stage, not with
`PayloadOutOfRange`. -/
theorem payload_range_unchecked_cx :
    u32 true ((blobC5cx.drop 4).take 4) = some 100 ∧
    blobC5cx.length = 20 ∧
    parseHeader true blobC5cx = some ⟨0, 100, 0, []⟩ ∧
    decode Dnil decNone blobC5cx = .error .NoValidDecompressionParameters ∧
    decode Dnil decNone blobC5cx ≠ .error .PayloadOutOfRange := by
  refine ⟨by decide, by decide, by rfl, by rfl, ?_⟩
  intro h
  rw [show decode Dnil decNone blobC5cx = .error .NoValidDecompressionParameters from rfl] at h
  exact absurd h (by simp)

/-- CLAIM C5, amended. The header parser never fails with
`PayloadOutOfRange` (no decode outcome is that error): the payload slice
is the clamping Python slice `blob[0x14 : 0x14 + payload_length]`, so for
every blob of length at least 0x14 parsing succeeds and the pipeline
proceeds with the payload truncated to `min payload_length
(len(blob) - 0x14)` bytes. -/
theorem payload_slice_clamped (D : List Nat → List Nat)
    (dec : List Nat → Int → Option (List Nat)) (raw : List Nat)
    (big_endian : Bool) (blob : List Nat) :
    decode D dec raw ≠ .error .PayloadOutOfRange ∧
    (0x14 ≤ blob.length →
      ∃ hdr, parseHeader big_endian blob = some hdr ∧
        hdr.compressed = (blob.drop 0x14).take hdr.data_size ∧
        hdr.compressed.length = min hdr.data_size (blob.length - 0x14)) := by
  constructor
  · intro h
    unfold decode at h
    cases hc : classify D raw with
    | error e =>
        simp only [hc] at h
        injection h with h2
        have := classify_error_is_unrecognized D raw e hc
        rw [this] at h2
        exact DecodeError.noConfusion h2
    | ok triple =>
        obtain ⟨blob2, be2, enc2⟩ := triple
        simp only [hc] at h
        cases hp : parseHeader be2 blob2 with
        | none =>
            simp only [hp] at h
            injection h with h2
            exact DecodeError.noConfusion h2
        | some hdr =>
            simp only [hp] at h
            by_cases hck : (crc32 hdr.compressed &&& 0xFFFFFFFF) = hdr.checksum
            · simp only [if_pos hck] at h
              cases hd : decompressStage dec hdr.compressed with
              | ok xml => simp only [hd] at h; exact Except.noConfusion h
              | error e =>
                  simp only [hd] at h
                  injection h with h2
                  have := decompressStage_error_is_novalid dec hdr.compressed e hd
                  rw [this] at h2
                  exact DecodeError.noConfusion h2
            · simp only [if_neg hck] at h
              injection h with h2
              exact DecodeError.noConfusion h2
  · intro hlen
    refine ⟨_, parseHeader_some_of_len big_endian blob hlen, rfl, ?_⟩
    simp [List.length_take, List.length_drop]

/-- Witness for C5 (amended) at `blobC5cx`, whose declared payload length
100 exceeds the 0 available bytes: parsing succeeds with the clamped,
empty payload. -/
theorem payload_slice_clamped_witness :
    decode Dnil decNone blobC5cx ≠ .error .PayloadOutOfRange ∧
    (∃ hdr, parseHeader true blobC5cx = some hdr ∧
      hdr.compressed = (blobC5cx.drop 0x14).take hdr.data_size ∧
      hdr.compressed.length = min hdr.data_size (blobC5cx.length - 0x14)) :=
  ⟨(payload_slice_clamped Dnil decNone blobC5cx true blobC5cx).1,
   (payload_slice_clamped Dnil decNone blobC5cx true blobC5cx).2 (by decide)⟩

/-- Counterexample to C6 as stated: the 4-byte blob consisting of exactly
the big-endian magic is shorter than 0x14, and the decode ends in the
uncaught `struct.error` fault (`StructError`), not in a typed
`TruncatedHeader` failure. -/
theorem truncated_header_claim_cx :
    decode Dnil decNone [0x00, 0x12, 0x31, 0x23] = .error .StructError ∧
    decode Dnil decNone [0x00, 0x12, 0x31, 0x23] ≠ .error .TruncatedHeader ∧
    ([0x00, 0x12, 0x31, 0x23] : List Nat).length < 0x14 := by
  refine ⟨by rfl, ?_, by decide⟩
  intro h
  rw [show decode Dnil decNone [0x00, 0x12, 0x31, 0x23] = .error .StructError from rfl] at h
  exact absurd h (by simp)

/-- CLAIM C6, amended. The header parser returns a parse only when the
blob has at least 0x14 bytes; on every shorter blob the first
`struct.unpack` call (`fw_magic` at offset 0x10) raises an uncaught
`struct.error` — the pipeline faults with `StructError` instead of
returning the typed `TruncatedHeader` failure or garbage field values. -/
theorem short_blob_struct_fault (D : List Nat → List Nat)
    (dec : List Nat → Int → Option (List Nat)) (big_endian : Bool)
    (blob : List Nat) :
    (parseHeader big_endian blob = none ↔ blob.length < 0x14) ∧
    (checkendian blob = some big_endian → blob.length < 0x14 →
      decode D dec blob = .error .StructError) := by
  have hiff : parseHeader big_endian blob = none ↔ blob.length < 0x14 := by
    constructor
    · intro h
      by_contra hlen
      push_neg at hlen
      rw [parseHeader_some_of_len big_endian blob hlen] at h
      exact Option.noConfusion h
    · intro hlen
      unfold parseHeader
      have hlen4 : ((blob.drop 0x10).take 4).length ≠ 4 := by
        simp [List.length_take, List.length_drop]
        omega
      unfold u32
      rw [if_neg hlen4]
  refine ⟨hiff, ?_⟩
  intro hce hlen
  unfold decode classify
  rw [hce]
  simp only
  rw [hiff.mpr hlen]

/-- Witness for C6 (amended) at the 4-byte magic-only blob. -/
theorem short_blob_struct_fault_witness :
    parseHeader true [0x00, 0x12, 0x31, 0x23] = none ∧
    decode Dnil decNone [0x00, 0x12, 0x31, 0x23] = .error .StructError :=
  ⟨(short_blob_struct_fault Dnil decNone true [0x00, 0x12, 0x31, 0x23]).1.mpr
     (by decide),
   (short_blob_struct_fault Dnil decNone true [0x00, 0x12, 0x31, 0x23]).2
     (by decide) (by decide)⟩

/-- CLAIM C3. Once the classifier and the header extraction have
succeeded, the decode fails with `ChecksumMismatch` exactly when the
CRC-32 of the payload slice, masked to 32 bits, differs from the header
checksum field; on a mismatch the decode is `ChecksumMismatch` for every
decompression oracle `dec` — decompression is never attempted. -/
theorem checksum_gate (D : List Nat → List Nat)
    (dec : List Nat → Int → Option (List Nat)) (raw blob : List Nat)
    (be enc : Bool) (hdr : Header)
    (hc : classify D raw = .ok (blob, be, enc))
    (hp : parseHeader be blob = some hdr) :
    ((crc32 hdr.compressed &&& 0xFFFFFFFF) = hdr.checksum ↔
      decode D dec raw ≠ .error .ChecksumMismatch) ∧
    ((crc32 hdr.compressed &&& 0xFFFFFFFF) ≠ hdr.checksum →
      decode D dec raw = .error .ChecksumMismatch) := by
  unfold decode
  rw [hc]
  simp only
  rw [hp]
  simp only
  by_cases h : (crc32 hdr.compressed &&& 0xFFFFFFFF) = hdr.checksum
  · rw [if_pos h]
    constructor
    · constructor
      · intro _
        cases hd : decompressStage dec hdr.compressed with
        | ok xml =>
            simp only [hd]
            intro hcontra
            exact Except.noConfusion hcontra
        | error e =>
            simp only [hd]
            intro hcontra
            injection hcontra with h2
            have := decompressStage_error_is_novalid dec hdr.compressed e hd
            rw [this] at h2
            exact DecodeError.noConfusion h2
      · intro _
        exact h
    · intro hne
      exact absurd h hne
  · rw [if_neg h]
    constructor
    · constructor
      · intro hcontra
        exact absurd hcontra h
      · intro hne
        exact absurd rfl hne
    · intro _
      rfl

/-- The 21-byte blob used to witness C3: big-endian magic, payload length
1, checksum field 0, one payload byte 0xAB whose CRC-32 is not 0. -/
def blobC3 : List Nat :=
  [0x00, 0x12, 0x31, 0x23,
   0, 0, 0, 1,
   0, 0, 0, 0,
   0, 0, 0, 0,
   0, 0, 0, 0,
   0xAB]

/-- Witness for C3 at `blobC3`: the CRC-32 of the one-byte payload 0xAB
differs from the stored checksum 0, so the decode fails with
`ChecksumMismatch` (under the always-failing decompression oracle — the
result does not depend on it). -/
theorem checksum_gate_witness :
    decode Dnil decNone blobC3 = .error .ChecksumMismatch :=
  (checksum_gate Dnil decNone blobC3 blobC3 true false ⟨0, 1, 0, [0xAB]⟩
    (by rfl) (by rfl)).2 (by decide)

/-- The observable of one inner-loop candidate on the already-shifted
payload: `some` of the output on a non-empty success, `none` on
`zlib.error` or empty output. -/
def innerHit (dec : List Nat → Int → Option (List Nat)) (co : List Nat)
    (w : Int) : Option (List Nat) :=
  match dec co w with
  | some x => if x = [] then none else some x
  | none => none

/-- The observable of one outer-loop offset: the first non-empty success
among the window parameters, in list order. -/
def offsetHit (dec : List Nat → Int → Option (List Nat)) (compressed : List Nat)
    (o : Nat) : Option (List Nat) :=
  wbits_to_try.findSome? (innerHit dec (compressed.drop o))

theorem innerHit_ne_nil (dec : List Nat → Int → Option (List Nat))
    (co : List Nat) (w : Int) (x : List Nat)
    (h : innerHit dec co w = some x) : x ≠ [] := by
  unfold innerHit at h
  cases hd : dec co w with
  | some y =>
      simp only [hd] at h
      by_cases hy : y = []
      · rw [if_pos hy] at h
        exact Option.noConfusion h
      · rw [if_neg hy] at h
        injection h with h2
        rw [← h2]
        exact hy
  | none =>
      simp only [hd] at h
      exact Option.noConfusion h

theorem findSome?_innerHit_ne_nil (dec : List Nat → Int → Option (List Nat))
    (co : List Nat) :
    ∀ (ws : List Int) (x : List Nat),
      ws.findSome? (innerHit dec co) = some x → x ≠ [] := by
  intro ws
  induction ws with
  | nil => intro x h; simp at h
  | cons w ws ih =>
      intro x h
      rw [List.findSome?_cons] at h
      cases hi : innerHit dec co w with
      | some y =>
          simp only [hi] at h
          injection h with h2
          rw [← h2]
          exact innerHit_ne_nil dec co w y hi
      | none =>
          simp only [hi] at h
          exact ih x h

theorem tryInner_found (dec : List Nat → Int → Option (List Nat))
    (co : List Nat) :
    ∀ (ws : List Int) (acc : Option (List Nat)) (x : List Nat),
      (acc = none ∨ acc = some []) →
      ws.findSome? (innerHit dec co) = some x →
      tryInner dec co ws acc = some x := by
  intro ws
  induction ws with
  | nil => intro acc x _ h; simp at h
  | cons w ws ih =>
      intro acc x hacc h
      rw [List.findSome?_cons] at h
      unfold tryInner
      cases hd : dec co w with
      | some y =>
          simp only [innerHit, hd] at h
          by_cases hy : y = []
          · rw [if_pos hy] at h
            simp only [hd, if_pos hy]
            exact ih (some y) x (Or.inr (by rw [hy])) h
          · rw [if_neg hy] at h
            simp only [hd, if_neg hy]
            exact h
      | none =>
          simp only [innerHit, hd] at h
          simp only [hd]
          exact ih acc x hacc h

theorem tryInner_notfound (dec : List Nat → Int → Option (List Nat))
    (co : List Nat) :
    ∀ (ws : List Int) (acc : Option (List Nat)),
      ws.findSome? (innerHit dec co) = none →
      (acc = none ∨ acc = some []) →
      (tryInner dec co ws acc = none ∨ tryInner dec co ws acc = some []) := by
  intro ws
  induction ws with
  | nil =>
      intro acc _ hacc
      simpa [tryInner] using hacc
  | cons w ws ih =>
      intro acc h hacc
      rw [List.findSome?_cons] at h
      unfold tryInner
      cases hd : dec co w with
      | some y =>
          simp only [innerHit, hd] at h
          by_cases hy : y = []
          · rw [if_pos hy] at h
            simp only [hd, if_pos hy]
            exact ih (some y) h (Or.inr (by rw [hy]))
          · rw [if_neg hy] at h
            exact Option.noConfusion h
      | none =>
          simp only [innerHit, hd] at h
          simp only [hd]
          exact ih acc h hacc

theorem findSome?_offsetHit_ne_nil (dec : List Nat → Int → Option (List Nat))
    (compressed : List Nat) :
    ∀ (os : List Nat) (x : List Nat),
      os.findSome? (offsetHit dec compressed) = some x → x ≠ [] := by
  intro os
  induction os with
  | nil => intro x h; simp at h
  | cons o os ih =>
      intro x h
      rw [List.findSome?_cons] at h
      cases ho : offsetHit dec compressed o with
      | some y =>
          simp only [ho] at h
          injection h with h2
          rw [← h2]
          exact findSome?_innerHit_ne_nil dec (compressed.drop o) wbits_to_try y ho
      | none =>
          simp only [ho] at h
          exact ih x h

theorem tryOffsets_found (dec : List Nat → Int → Option (List Nat))
    (compressed : List Nat) :
    ∀ (os : List Nat) (acc : Option (List Nat)) (x : List Nat),
      (acc = none ∨ acc = some []) →
      os.findSome? (offsetHit dec compressed) = some x →
      tryOffsets dec compressed os acc = some x := by
  intro os
  induction os with
  | nil => intro acc x _ h; simp at h
  | cons o os ih =>
      intro acc x hacc h
      rw [List.findSome?_cons] at h
      unfold tryOffsets
      cases ho : offsetHit dec compressed o with
      | some y =>
          simp only [ho] at h
          have hy : y ≠ [] :=
            findSome?_innerHit_ne_nil dec (compressed.drop o) wbits_to_try y ho
          have ht : tryInner dec (compressed.drop o) wbits_to_try acc = some y :=
            tryInner_found dec (compressed.drop o) wbits_to_try acc y hacc ho
          simp only [ht, if_neg hy]
          exact h
      | none =>
          simp only [ho] at h
          have ht := tryInner_notfound dec (compressed.drop o) wbits_to_try acc ho hacc
          rcases ht with h1 | h1
          · simp only [h1]
            exact ih none x (Or.inl rfl) h
          · simp only [h1, if_pos rfl]
            exact ih (some []) x (Or.inr rfl) h

theorem tryOffsets_notfound (dec : List Nat → Int → Option (List Nat))
    (compressed : List Nat) :
    ∀ (os : List Nat) (acc : Option (List Nat)),
      os.findSome? (offsetHit dec compressed) = none →
      (acc = none ∨ acc = some []) →
      (tryOffsets dec compressed os acc = none ∨
        tryOffsets dec compressed os acc = some []) := by
  intro os
  induction os with
  | nil =>
      intro acc _ hacc
      simpa [tryOffsets] using hacc
  | cons o os ih =>
      intro acc h hacc
      rw [List.findSome?_cons] at h
      unfold tryOffsets
      cases ho : offsetHit dec compressed o with
      | some y =>
          simp only [ho] at h
          exact Option.noConfusion h
      | none =>
          simp only [ho] at h
          have ht := tryInner_notfound dec (compressed.drop o) wbits_to_try acc ho hacc
          rcases ht with h1 | h1
          · simp only [h1]
            exact ih none h (Or.inl rfl)
          · simp only [h1, if_pos rfl]
            exact ih (some []) h (Or.inr rfl)

theorem findSome?_flatMap_pairs (dec : List Nat → Int → Option (List Nat))
    (compressed : List Nat) :
    ∀ (os : List Nat),
      ((os.flatMap (fun o => wbits_to_try.map (fun w => (o, w)))).findSome?
          (candidateHit dec compressed))
        = os.findSome? (offsetHit dec compressed) := by
  intro os
  induction os with
  | nil => rfl
  | cons o os ih =>
      rw [List.flatMap_cons, List.findSome?_append, ih, List.findSome?_cons,
        List.findSome?_map]
      have hcomp : (candidateHit dec compressed ∘ fun w => (o, w))
          = innerHit dec (compressed.drop o) := rfl
      rw [hcomp]
      cases ho : offsetHit dec compressed o with
      | some y => simp only [offsetHit] at ho; rw [ho]; rfl
      | none => simp only [offsetHit] at ho; rw [ho]; rfl

/-- CLAIM C1. For every decompression oracle and payload, the
decompression stage tries the skip-offsets 0, 4, 8, 12, 16 as the outer
loop and the window parameters of `wbits_to_try` as the inner loop, in
list order, and returns the output of the first (offset, parameter)
candidate — first in the `candidatePairs` order, hence the
lexicographically-first successful pair — whose decompression succeeds
with non-empty output; it fails with `NoValidDecompressionParameters`
when every candidate of the Cartesian product raises or yields empty
output. -/
theorem decompress_search_order (dec : List Nat → Int → Option (List Nat))
    (payload : List Nat) :
    decompressStage dec payload =
      match candidatePairs.findSome? (candidateHit dec payload) with
      | some xml => .ok xml
      | none => .error .NoValidDecompressionParameters := by
  have hflat : candidatePairs.findSome? (candidateHit dec payload)
      = offsets.findSome? (offsetHit dec payload) := by
    unfold candidatePairs
    exact findSome?_flatMap_pairs dec payload offsets
  rw [hflat]
  cases hfs : offsets.findSome? (offsetHit dec payload) with
  | some x =>
      have hx := findSome?_offsetHit_ne_nil dec payload offsets x hfs
      have ht := tryOffsets_found dec payload offsets none x (Or.inl rfl) hfs
      unfold decompressStage searchLoop
      simp only [ht, if_neg hx]
  | none =>
      have ht := tryOffsets_notfound dec payload offsets none hfs (Or.inl rfl)
      unfold decompressStage searchLoop
      rcases ht with h1 | h1
      · simp only [h1]
      · simp only [h1, if_pos rfl]
        simp

/-- The AES-256 inverse cipher always produces a 16-byte block: the final
AddRoundKey zips a 16-entry state with the 16-byte round key 0 of the
hard-coded key schedule. -/
theorem aesDecBlockNokia_length (b : List Nat) :
    (aesDecBlockNokia b).length = 16 := by
  have h16 : (roundKeyBytes (keyWords nokiaKey) 0).length = 16 := by decide
  unfold aesDecBlockNokia aesDecBlockWith
  simp only [addRoundKey, invSubBytes, invShiftRows, List.length_zipWith,
    List.length_map, List.length_range, h16]
  omega

/-- The raw CBC decryption of a non-empty ciphertext is non-empty: its
first block is the zip of a 16-byte AES output with the 16-byte IV. -/
theorem nokiaRawDecrypt_ne_nil (data : List Nat) (h : data ≠ []) :
    nokiaRawDecrypt data ≠ [] := by
  unfold nokiaRawDecrypt rawCBCDecrypt
  cases data with
  | nil => exact absurd rfl h
  | cons b rest =>
      simp only [List.length_cons, cbcDec]
      intro hcontra
      have h1 := (List.append_eq_nil.mp hcontra).1
      have h2 := congrArg List.length h1
      rw [List.length_zipWith, aesDecBlockNokia_length] at h2
      have h3 : nokiaIV.length = 16 := by decide
      rw [h3] at h2
      simp at h2

/-- CLAIM C8, amended. For every ciphertext whose length is a positive
multiple of 16, `decrypt` reads the last byte `n` of the raw AES-256-CBC
decryption and returns the Python slice `output[:-n]`: for `n > 0` the
raw decryption with `min n (len)` trailing bytes removed — length
`max (0, len - n)` — but for `n = 0` the empty sequence (`[:-0]` is
`[:0]`), not the full plaintext that removing zero trailing bytes would
leave. -/
theorem decrypt_strip (data : List Nat) (h16 : data.length % 16 = 0)
    (hne : data ≠ []) :
    ∃ n, (nokiaRawDecrypt data).getLast? = some n ∧
      nokiaDecrypt data =
        .ok (if n = 0 then [] else
          (nokiaRawDecrypt data).take ((nokiaRawDecrypt data).length - n)) := by
  have hraw : nokiaRawDecrypt data ≠ [] := nokiaRawDecrypt_ne_nil data hne
  obtain ⟨n, hn⟩ : ∃ n, (nokiaRawDecrypt data).getLast? = some n := by
    cases hx : (nokiaRawDecrypt data).getLast? with
    | none => exact absurd (List.getLast?_eq_none_iff.mp hx) hraw
    | some n => exact ⟨n, rfl⟩
  refine ⟨n, hn, ?_⟩
  unfold nokiaDecrypt RouterCrypto.decrypt
  rw [if_pos h16]
  unfold nokiaRawDecrypt at hn
  rw [hn]
  simp only [pyNegSlice]
  rfl

/-- Witness for C8 (amended) at the all-zero 16-byte ciphertext. -/
theorem decrypt_strip_witness :
    ∃ n, (nokiaRawDecrypt [0, 0, 0, 0, 0, 0, 0, 0, 0, 0, 0, 0, 0, 0, 0, 0]).getLast?
        = some n ∧
      nokiaDecrypt [0, 0, 0, 0, 0, 0, 0, 0, 0, 0, 0, 0, 0, 0, 0, 0] =
        .ok (if n = 0 then [] else
          (nokiaRawDecrypt [0, 0, 0, 0, 0, 0, 0, 0, 0, 0, 0, 0, 0, 0, 0, 0]).take
            ((nokiaRawDecrypt [0, 0, 0, 0, 0, 0, 0, 0, 0, 0, 0, 0, 0, 0, 0, 0]).length - n)) :=
  decrypt_strip [0, 0, 0, 0, 0, 0, 0, 0, 0, 0, 0, 0, 0, 0, 0, 0]
    (by decide) (by decide)

/-- A 16-byte ciphertext whose raw AES-256-CBC decryption under the
hard-coded key and IV ends in the byte 0 (found by searching the first
two ciphertext bytes). -/
def ct0 : List Nat := [0, 207, 0, 0, 0, 0, 0, 0, 0, 0, 0, 0, 0, 0, 0, 0]

/-- Counterexample to C8 as stated: `ct0` has length 16, a positive
multiple of the block size; the last byte of its raw decryption is
`n = 0`, so removing exactly `n` trailing bytes would return the whole
16-byte raw plaintext — but `decrypt` returns the empty sequence
(Python's `output[:-0]`). -/
theorem decrypt_zero_pad_cx :
    ct0.length = 16 ∧
    (nokiaRawDecrypt ct0).getLast? = some 0 ∧
    (nokiaRawDecrypt ct0).length = 16 ∧
    nokiaDecrypt ct0 = .ok [] ∧
    nokiaDecrypt ct0 ≠ .ok (nokiaRawDecrypt ct0) := by
  refine ⟨by decide, by decide, by decide, by rfl, ?_⟩
  intro h
  rw [show nokiaDecrypt ct0 = .ok [] from rfl] at h
  injection h with h2
  have h3 := congrArg List.length h2
  rw [show (nokiaRawDecrypt ct0).length = 16 from by decide] at h3
  simp at h3
